import Mathlib

/-!
Verification development for the LLM-assisted support-ticket-processing
repository.  The Python sources are shallowly embedded: text is modelled as
`List Char`, Python dictionaries as insertion-ordered association lists,
Python sets as lists read through membership, and the database effect layer
as `Except`-valued oracles together with a flag recording whether the
acquired connection was closed.
-/

namespace STP

/-! ## Chunker (`src/utils/chunking.py`, `naive_chunking`) -/

/-- Maximum chunk length, `max_len = 2500` in `naive_chunking`. -/
def maxLen : Nat := 2500

/-- One output chunk: the dict entries `{"text": k, "page_no": v}` built at the
end of `naive_chunking`.  `page_no` is `Option Nat` because the Python value
can be `None`. -/
structure Chunk where
  text : List Char
  page_no : Option Nat
  deriving Repr, DecidableEq

/-- Python dict assignment `d[k] = v` on an insertion-ordered association
list: an existing key is overwritten in place, a new key is appended at the
end (CPython dict semantics). -/
def dictSet (d : List (List Char × Option Nat)) (k : List Char) (v : Option Nat) :
    List (List Char × Option Nat) :=
  match d with
  | [] => [(k, v)]
  | (k0, v0) :: rest => if k0 = k then (k, v) :: rest else (k0, v0) :: dictSet rest k v

/-- Loop state of `naive_chunking`: `current_string`, `last_str`, `page_num`
and `output_dict`. -/
structure ChunkState where
  current : List Char
  last : List Char
  pageNum : Option Nat
  outputDict : List (List Char × Option Nat)
  deriving Repr, DecidableEq

/-- One iteration of the `for t, n in text` loop of `naive_chunking`.
`t[0:1] == "#"` together with `len(t) > 1` is the header test; in the
append branch the separator space of `f' {t}'` is the extra `' '` cons;
`page_num` follows `if page_num is None or n < page_num`. -/
def chunkStep (overlap : Bool) (s : ChunkState) (tn : List Char × Nat) : ChunkState :=
  if 1 < tn.1.length ∧ tn.1.take 1 = ['#'] then
    let d := match s.pageNum with
      | some p => dictSet s.outputDict s.current (some p)
      | none => s.outputDict
    { s with current := tn.1, pageNum := some tn.2, outputDict := d }
  else
    if s.current.length + tn.1.length ≤ maxLen then
      { s with current := s.current ++ ' ' :: tn.1,
               last := tn.1,
               pageNum := some (match s.pageNum with
                 | none => tn.2
                 | some p => min tn.2 p) }
    else
      { s with outputDict := dictSet s.outputDict s.current s.pageNum,
               current := if overlap then s.last ++ ' ' :: tn.1 else tn.1,
               pageNum := some tn.2 }

/-- Initial state of `naive_chunking`: empty `current_string` and `last_str`,
`page_num = None`, empty `output_dict`. -/
def chunkInit : ChunkState := ⟨[], [], none, []⟩

/-- Embedding of `naive_chunking(text, overlap)`: fold the per-segment step
over the input, seal the final accumulator (`output_dict[current_string] =
page_num`), and read the dict off as the output list of chunks. -/
def naive_chunking (text : List (List Char × Nat)) (overlap : Bool) : List Chunk :=
  let s := text.foldl (chunkStep overlap) chunkInit
  (dictSet s.outputDict s.current s.pageNum).map (fun kv => ⟨kv.1, kv.2⟩)

/-! ### Chunker invariants -/

/-- Shape of any accumulator value `current_string` can take during
`naive_chunking` on input `segs`: within one character of the bound (the
joining space is not counted by the size check), a single segment's text
(header or fresh overflow start), or an overlap seed, a space, and a single
segment's text. -/
def SegOk (segs : List (List Char × Nat)) (c : List Char) : Prop :=
  c.length ≤ maxLen + 1
  ∨ (∃ t n, (t, n) ∈ segs ∧ c = t)
  ∨ (∃ l t n, (t, n) ∈ segs ∧ (l = [] ∨ ∃ m, (l, m) ∈ segs) ∧ c = l ++ ' ' :: t)

/-- `last_str` is empty or a segment text of the input. -/
def LastOk (segs : List (List Char × Nat)) (l : List Char) : Prop :=
  l = [] ∨ ∃ m, (l, m) ∈ segs

/-- Loop invariant of `naive_chunking`. -/
def ChunkInv (segs : List (List Char × Nat)) (s : ChunkState) : Prop :=
  SegOk segs s.current ∧ LastOk segs s.last ∧ ∀ kv ∈ s.outputDict, SegOk segs kv.1

/-! ## Irrelevant page detector (`src/ingestor/pdf_util.py`,
`detect_irrelevant_pages`) -/

/-- One page of the document, described by exactly the features the per-page
loop of `detect_irrelevant_pages` reads off the page text: the outcome of
`langdetect.detect` (`none` models the detector raising, after which `lang`
stays `None`), the word count `len(text.split())`, and the boolean/count
results of the regex searches on the lower-cased page text. -/
structure Page where
  langResult : Option (List Char)
  wordCount : Nat
  hasTitleKeywords : Bool
  hasNoticesKeywords : Bool
  hasTocIndicators : Bool
  pageNumberMatches : Nat
  deriving Repr, DecidableEq

/-- One `(section_title, page_number, level)` entry of the extracted table of
contents.  `page` is the raw page number stored by
`extract_table_of_contents`: for a built-in TOC the 1-based `fitz` page
number, for a synthesized TOC the printed page number parsed from the
dot-leader line; in neither case is it converted to a 0-based index. -/
structure TocEntry where
  title : List Char
  page : Nat
  level : Nat
  deriving Repr, DecidableEq

/-- A document as `detect_irrelevant_pages` sees it: its pages (in order) and
its extracted table of contents. -/
structure PdfDoc where
  pages : List Page
  toc : List TocEntry
  deriving Repr

/-- Abstraction of `extract_table_of_contents`: the built-in branch returns
`doc.get_toc()` reordered as `(title, page, level)` triples and the fallback
branch synthesizes entries from dot-leader lines, ranking font sizes as
levels; both produce the `(title, page, level)` list carried on the document
model, so the function is the `toc` projection here. -/
def extract_table_of_contents (doc : PdfDoc) : List TocEntry := doc.toc

/-- The target language literal `"en"`. -/
def enLang : List Char := ['e', 'n']

/-- Loop state of the per-page loop: `pages_to_remove` (a Python set, read
through membership here), `in_toc_section` and `consecutive_toc_count`. -/
structure DetectState where
  excl : List Nat
  inToc : Bool
  consec : Nat
  deriving Repr, DecidableEq

/-- The TOC-block test of the per-page loop:
`(has_toc_indicators or (in_toc_section and has_page_numbers)) and page_num < 20`,
where `has_page_numbers` is `len(re.findall(...)) > 2`. -/
def tocHit (inToc : Bool) (i : Nat) (p : Page) : Bool :=
  (p.hasTocIndicators || (inToc && decide (2 < p.pageNumberMatches))) && decide (i < 20)

/-- One iteration of the per-page loop of `detect_irrelevant_pages` for page
index `i`.  When `detect` raised, `lang` is still `None`, so the
`if lang == "en"` test fails and the `else` branch adds the page.  In the
`"en"` branch the three `pages_to_remove.add`/`update` calls are rendered as
appends of the added indices under the same conditions: the title-page rule
(`page_num == 0` with few words or author/copyright match), the
notices/acknowledgments rule (`page_num <= 10`), and the TOC-block rule,
which adds the page and — on first detection only (`if not in_toc_section`)
— all preceding pages `range(0, page_num)`.  In the non-TOC branch the
source sets `consecutive_toc_count = 0` and then tests
`if consecutive_toc_count == 0` (always true), so `in_toc_section` becomes
`False`. -/
def pageStep (s : DetectState) (i : Nat) (p : Page) : DetectState :=
  if p.langResult = some enLang then
    { excl := s.excl
        ++ (if i = 0 ∧ (p.wordCount < 100 ∨ p.hasTitleKeywords = true) then [i] else [])
        ++ (if p.hasNoticesKeywords = true ∧ i ≤ 10 then [i] else [])
        ++ (if tocHit s.inToc i p then
              i :: (if s.inToc = true then [] else List.range i) else []),
      inToc := tocHit s.inToc i p,
      consec := if tocHit s.inToc i p then s.consec + 1 else 0 }
  else
    { s with excl := s.excl ++ [i] }

/-- The loop `for page_num in range(len(doc))`, with `i` the index of the
first page of `l`. -/
def pageLoop : DetectState → Nat → List Page → DetectState
  | s, _, [] => s
  | s, i, p :: rest => pageLoop (pageStep s i p) (i + 1) rest

/-- Boolean substring test: `pat` occurs contiguously in `hay` (the semantics
of `re.search` for a literal pattern). -/
def containsSub (hay pat : List Char) : Bool :=
  hay.tails.any (fun suf => pat.isPrefixOf suf)

/-- The literal alternatives of the denylist regex
`other resources|additional resources|acronyms|abbreviations|abstract|index|recycling|specifications`. -/
def denylist : List (List Char) :=
  ["other resources".data, "additional resources".data, "acronyms".data,
   "abbreviations".data, "abstract".data, "index".data, "recycling".data,
   "specifications".data]

/-- `re.search(denylist_regex, title)` as a boolean: some literal alternative
occurs in the title.  The search is case-sensitive and the title is not
lower-cased first. -/
def denyMatch (title : List Char) : Bool :=
  denylist.any (fun pat => containsSub title pat)

/-- The body of the TOC-entry loop for the entry `e` at some position, with
`rest` the entries after it.  The inner loop `for j in range(i+1, len(toc))`
ranges exactly over `rest`; its guard is the source's
`not toc[j][-1] == item[-1] or toc[j][-1] > item[-1]`, which (by Python
precedence) is `(toc[j].level ≠ item.level) or (toc[j].level > item.level)`.
`i+1 == len(toc)` (the matched entry is last) is `rest = []`, and
`range(page, len(doc))` is `List.range' page (docLen - page)`. -/
def tocStep (docLen : Nat) (s : List Nat) (e : TocEntry) (rest : List TocEntry) : List Nat :=
  if denyMatch e.title then
    let s1 := s ++ [e.page]
    let s2 := s1 ++ (rest.filter
      (fun f => decide (¬ f.level = e.level ∨ e.level < f.level))).map (fun f => f.page)
    if rest = [] then s2 ++ List.range' e.page (docLen - e.page) else s2
  else s

/-- The loop `for i, item in enumerate(toc)`. -/
def tocLoop (docLen : Nat) : List Nat → List TocEntry → List Nat
  | s, [] => s
  | s, e :: rest => tocLoop docLen (tocStep docLen s e rest) rest

/-- Embedding of `detect_irrelevant_pages(doc)`: the per-page loop followed by
the TOC-entry-driven exclusion; the returned Python set is modelled by the
list of added indices, read through membership. -/
def detect_irrelevant_pages (doc : PdfDoc) : List Nat :=
  let st := pageLoop ⟨[], false, 0⟩ 0 doc.pages
  tocLoop doc.pages.length st.excl (extract_table_of_contents doc)

/-! ## Document linearizer (`src/ingestor/pdf_util.py`, `process_pdf` and
`stringify_list`) -/

/-- The dispatch class of one docling item, named after the branch of the
`elif` chain of `process_pdf` that handles it: `title` (a `TextItem` labelled
`TITLE`), `sectionHeader` (`SECTION_HEADER` label or `SectionHeaderItem`),
`listGroup` (a `GroupItem` labelled `LIST`/`ORDERED_LIST`), `otherGroup` (any
other `GroupItem`, emitted with its text), `listItem` (a `ListItem` labelled
`LIST_ITEM`, carrying `enumerated` and its ordinal `marker`), `textItem` (any
other `TextItem`), `tableItem` (a `TableItem`, carrying its Markdown
export). -/
inductive ItemKind where
  | title : List Char → ItemKind
  | sectionHeader : List Char → ItemKind
  | listGroup : ItemKind
  | otherGroup : List Char → ItemKind
  | listItem : Bool → List Char → List Char → ItemKind
  | textItem : List Char → ItemKind
  | tableItem : List Char → ItemKind
  deriving Repr, DecidableEq

/-- `isinstance(item, (ListItem, GroupItem))`: the flush-on-exit test of the
main loop. -/
def ItemKind.isListOrGroup : ItemKind → Bool
  | .listGroup => true
  | .otherGroup _ => true
  | .listItem _ _ _ => true
  | _ => false

/-- One item yielded by `result.document.iterate_items()`: its dispatch
class, `item.prov[0].page_no` (1-based), the iteration `level`, and whether
`item.label` is in `DEFAULT_EXPORT_LABELS`. -/
structure DocItem where
  kind : ItemKind
  page : Nat
  level : Nat
  exported : Bool
  deriving Repr, DecidableEq

/-- Loop state of `process_pdf`: `list_nesting_level`, `previous_level`,
`in_list`, `current_list`, `current_list_page` and the output `elements`
list. -/
structure PdfState where
  listNestingLevel : Nat
  previousLevel : Nat
  inList : Bool
  currentList : List (List Char)
  currentListPage : Option Nat
  elements : List (List Char × Option Nat)
  deriving Repr, DecidableEq

/-- Python `str.strip()` on the character-list model: leading and trailing
whitespace removed (space, tab, newline, carriage return, vertical tab,
form feed). -/
def pyStrip (l : List Char) : List Char :=
  ((l.dropWhile (fun c => c.isWhitespace || c == Char.ofNat 11 || c == Char.ofNat 12)).reverse.dropWhile
    (fun c => c.isWhitespace || c == Char.ofNat 11 || c == Char.ofNat 12)).reverse

/-- Embedding of `stringify_list(current_list, elements, current_list_page)`:
join the buffered lines with `"\n"`, append the joined string with the page
to `elements`, clear the buffer. -/
def stringify_list (currentList : List (List Char))
    (elements : List (List Char × Option Nat)) (currentListPage : Option Nat) :
    List (List Char) × List (List Char × Option Nat) :=
  ([], elements ++ [(List.intercalate ['\n'] currentList, currentListPage)])

/-- The `if current_list and in_list: stringify_list(...); current_list_page =
None` + `in_list = False` sequence that each non-list dispatch branch of
`process_pdf` runs before emitting its own segment. -/
def flushList (s : PdfState) : PdfState :=
  if s.currentList ≠ [] ∧ s.inList = true then
    { s with currentList := (stringify_list s.currentList s.elements s.currentListPage).1,
             elements := (stringify_list s.currentList s.elements s.currentListPage).2,
             currentListPage := none, inList := false }
  else
    { s with inList := false }

/-- The pre-dispatch flush of `process_pdf` (lines 296–303): when `elements`
is non-empty, the item is neither a `ListItem` nor a `GroupItem`, and we are
inside a list, flush a non-empty buffer and leave list mode. -/
def preFlush (s : PdfState) (k : ItemKind) : PdfState :=
  if s.elements.length > 0 ∧ k.isListOrGroup = false ∧ s.inList = true then
    if s.currentList ≠ [] then
      { s with currentList := (stringify_list s.currentList s.elements s.currentListPage).1,
               elements := (stringify_list s.currentList s.elements s.currentListPage).2,
               currentListPage := none, inList := false }
    else
      { s with inList := false }
  else s

/-- The section-header marker: `"#" * min(level, 6) + " "`, replaced by
`"## "` when shorter than three characters. -/
def headerMarker (level : Nat) : List Char :=
  let marker := List.replicate (min level 6) '#' ++ [' ']
  if marker.length < 3 then ['#', '#', ' '] else marker

/-- The list-item line: `f"{list_indent}{marker}{item.text}".strip()` with
`list_indent = " " * (indent * (list_nesting_level - 1))`, `indent = 4`, and
the marker `f"{item.marker} "` for enumerated items, else `"- "`.  (Python's
negative string repeat for `list_nesting_level = 0` and Nat subtraction both
give the empty indent.) -/
def listItemLine (listNestingLevel : Nat) (enumerated : Bool)
    (marker : List Char) (text : List Char) : List Char :=
  let listIndent := List.replicate (4 * (listNestingLevel - 1)) ' '
  let m := if enumerated then marker ++ [' '] else ['-', ' ']
  pyStrip (listIndent ++ m ++ text)

/-- One iteration of the `for item, level in result.document.iterate_items()`
loop of `process_pdf`: the nesting-level adjustment (`max(0, ...)` is Nat
subtraction), the pre-dispatch flush, the `DEFAULT_EXPORT_LABELS` skip, the
ignored-page skip (`item.prov[0].page_no - 1 in pages_to_ignore`), and the
per-class dispatch. -/
def processItem (tables : Bool) (pagesToIgnore : List Nat) (s0 : PdfState)
    (it : DocItem) : PdfState :=
  let lnl := if it.level < s0.previousLevel
    then s0.listNestingLevel - (s0.previousLevel - it.level)
    else s0.listNestingLevel
  let s1 := { s0 with listNestingLevel := lnl, previousLevel := it.level }
  let s2 := preFlush s1 it.kind
  if it.exported = false then s2
  else if (it.page - 1) ∈ pagesToIgnore then s2
  else
    match it.kind with
    | .title t =>
        let s3 := flushList s2
        { s3 with elements := s3.elements ++ [('#' :: ' ' :: t, some it.page)] }
    | .sectionHeader t =>
        let s3 := flushList s2
        { s3 with elements := s3.elements ++ [(headerMarker it.level ++ t, some it.page)] }
    | .listGroup =>
        { s2 with listNestingLevel := s2.listNestingLevel + 1, inList := true,
                  currentListPage := some it.page }
    | .otherGroup t =>
        { s2 with elements := s2.elements ++ [(t, some it.page)] }
    | .listItem enumerated marker t =>
        { s2 with inList := true, currentListPage := some it.page,
                  currentList := s2.currentList
                    ++ [listItemLine s2.listNestingLevel enumerated marker t] }
    | .textItem t =>
        let s3 := flushList s2
        { s3 with elements := s3.elements ++ [(t, some it.page)] }
    | .tableItem md =>
        if tables = true then
          let s3 := flushList s2
          { s3 with elements := s3.elements ++ [(md, some it.page)] }
        else s2

/-- The initial state of `process_pdf`'s loop. -/
def pdfInit : PdfState := ⟨0, 0, false, [], none, []⟩

/-- Embedding of the element-extraction loop of `process_pdf` over the
converted item stream: fold the per-item step, then flush any remaining list
buffer — the end-of-stream flush uses `"".join(current_list)` (the empty
separator), not `stringify_list`. -/
def process_pdf_items (items : List DocItem) (pagesToIgnore : List Nat)
    (tables : Bool) : List (List Char × Option Nat) :=
  let s := items.foldl (processItem tables pagesToIgnore) pdfInit
  if s.currentList ≠ [] then s.elements ++ [(s.currentList.flatten, s.currentListPage)]
  else s.elements

/-! ## Hybrid retrieval fusion (`src/coordinator/utils.py`,
`generate_sql_query`) -/

/-- Modelled from the spec: the database-side SQL function `rrf_score`, which
is invoked by the query that `generate_sql_query` builds
(`sum(rrf_score(searches.rank::int)) AS score`) but is created on the
database and is not part of `src/`; per the spec it is the reciprocal-rank-
fusion term `1/(k + rank)` with the constant `k` fixed at 60. -/
def rrf_score (rank : Nat) : ℚ := 1 / (60 + rank)

/-- The fused score computed by the query built by `generate_sql_query`: the
two `LIMIT 40` branches (vector rank, lexical rank) are combined with
`UNION ALL`, grouped by row identity, and scored with
`sum(rrf_score(rank))`, so a row contributes one `rrf_score` term per branch
in which it appears; `none` means the row is absent from that branch. -/
def fusedScore (vrank lrank : Option Nat) : ℚ :=
  (match vrank with
    | some r => rrf_score r
    | none => 0)
  + (match lrank with
    | some r => rrf_score r
    | none => 0)

/-! ## Store error handling (`src/coordinator/utils.py`, `retrieve_context`
and `src/ingestor/utils.py`, `add_manual_chunks_to_db`) -/

/-- Effect model of `retrieve_context`: `connect` is the outcome of
`get_psycopg_client()` (called BEFORE the `try`), and `runQueries` the
outcome of the `try` body (register, embed, execute both queries, fetch).
The result pairs the value returned or exception raised with whether
`client.close()` ran.  The `except` clause re-raises (`raise e`) and the
`finally` clause closes the client, so after a successful connect both exit
paths close; a connect failure propagates before any connection exists. -/
def retrieve_context {α β : Type} (connect : Except (List Char) α)
    (runQueries : α → Except (List Char) β) : Except (List Char) β × Bool :=
  match connect with
  | .error e => (.error e, false)
  | .ok c =>
    match runQueries c with
    | .ok r => (.ok r, true)
    | .error e => (.error e, true)

/-- The `NameError` raised by `add_manual_chunks_to_db`'s `finally` block
when `get_psycopg_client()` itself raised: `client` was never bound, so
`client.close()` fails. -/
def nameErrorClient : List Char := "NameError: client is not defined".data

/-- Effect model of `add_manual_chunks_to_db`: here `client =
get_psycopg_client()` is INSIDE the `try`, the `except Exception` clause
only prints the exception (it does not re-raise), and the `finally` clause
runs `client.close()`.  A failure of the body is therefore swallowed and the
function returns `None`; a failure of `connect` is caught and printed, after
which the `finally` block raises `NameError` because `client` is unbound. -/
def add_manual_chunks_to_db {α : Type} (connect : Except (List Char) α)
    (runInsert : α → Except (List Char) Unit) : Except (List Char) Unit × Bool :=
  match connect with
  | .error _ => (.error nameErrorClient, false)
  | .ok c =>
    match runInsert c with
    | .ok _ => (.ok (), true)
    | .error _ => (.ok (), true)

lemma dictSet_forall {P : List Char → Prop} (d : List (List Char × Option Nat))
    (k : List Char) (v : Option Nat) (hd : ∀ kv ∈ d, P kv.1) (hk : P k) :
    ∀ kv ∈ dictSet d k v, P kv.1 := by
  induction d with
  | nil =>
      intro kv hkv
      simp only [dictSet, List.mem_singleton] at hkv
      rw [hkv]
      exact hk
  | cons a rest ih =>
      intro kv hkv
      obtain ⟨k0, v0⟩ := a
      by_cases h : k0 = k
      · rw [dictSet, if_pos h] at hkv
        rcases List.mem_cons.mp hkv with h1 | h1
        · rw [h1]; exact hk
        · exact hd _ (List.mem_cons_of_mem _ h1)
      · rw [dictSet, if_neg h] at hkv
        rcases List.mem_cons.mp hkv with h1 | h1
        · rw [h1]; exact hd _ (List.mem_cons_self _ _)
        · exact ih (fun kv hkv => hd kv (List.mem_cons_of_mem _ hkv)) _ h1

lemma chunkStep_inv (segs : List (List Char × Nat)) (ov : Bool) (s : ChunkState)
    (tn : List Char × Nat) (htn : tn ∈ segs) (hs : ChunkInv segs s) :
    ChunkInv segs (chunkStep ov s tn) := by
  obtain ⟨hc, hl, hd⟩ := hs
  obtain ⟨t, n⟩ := tn
  obtain ⟨cur, last, pn, dict⟩ := s
  simp only [chunkStep]
  split_ifs with hhdr happ hov
  · refine ⟨Or.inr (Or.inl ⟨t, n, htn, rfl⟩), hl, ?_⟩
    cases pn with
    | none => exact hd
    | some p => exact dictSet_forall _ _ _ hd hc
  · refine ⟨?_, Or.inr ⟨n, htn⟩, hd⟩
    left
    have : cur.length + t.length ≤ maxLen := happ
    simp only [List.length_append, List.length_cons]
    omega
  · exact ⟨Or.inr (Or.inr ⟨last, t, n, htn, hl, rfl⟩), hl, dictSet_forall _ _ _ hd hc⟩
  · exact ⟨Or.inr (Or.inl ⟨t, n, htn, rfl⟩), hl, dictSet_forall _ _ _ hd hc⟩

lemma chunkFold_inv (segs : List (List Char × Nat)) (ov : Bool) :
    ∀ (l : List (List Char × Nat)) (s : ChunkState), (∀ x ∈ l, x ∈ segs) →
      ChunkInv segs s → ChunkInv segs (l.foldl (chunkStep ov) s) := by
  intro l
  induction l with
  | nil => intro s _ hs; exact hs
  | cons a rest ih =>
      intro s hsub hs
      exact ih _ (fun x hx => hsub x (List.mem_cons_of_mem _ hx))
        (chunkStep_inv segs ov s a (hsub a (List.mem_cons_self _ _)) hs)

/-! ### Keys of the output dict -/

lemma dictSet_keys (d : List (List Char × Option Nat)) (k : List Char) (v : Option Nat) :
    (dictSet d k v).map Prod.fst =
      if k ∈ d.map Prod.fst then d.map Prod.fst else d.map Prod.fst ++ [k] := by
  induction d with
  | nil => simp [dictSet]
  | cons a rest ih =>
      obtain ⟨k0, v0⟩ := a
      by_cases h : k0 = k
      · subst h
        simp [dictSet]
      · simp only [dictSet, if_neg h, List.map_cons, ih, List.mem_cons]
        have hne : ¬ k = k0 := fun hkk => h hkk.symm
        by_cases hk : k ∈ rest.map Prod.fst
        · simp [hk, hne]
        · simp [hk, hne]

lemma dictSet_nodup (d : List (List Char × Option Nat)) (k : List Char) (v : Option Nat)
    (h : (d.map Prod.fst).Nodup) : ((dictSet d k v).map Prod.fst).Nodup := by
  rw [dictSet_keys]
  split_ifs with hk
  · exact h
  · rw [List.nodup_append]
    exact ⟨h, List.nodup_singleton k, by simpa [List.disjoint_left] using hk⟩

lemma chunkStep_nodup (ov : Bool) (s : ChunkState) (tn : List Char × Nat)
    (h : (s.outputDict.map Prod.fst).Nodup) :
    (((chunkStep ov s tn).outputDict).map Prod.fst).Nodup := by
  obtain ⟨t, n⟩ := tn
  obtain ⟨cur, last, pn, dict⟩ := s
  simp only [chunkStep]
  split_ifs with hhdr happ hov
  · cases pn with
    | none => exact h
    | some p => exact dictSet_nodup _ _ _ h
  · exact h
  · exact dictSet_nodup _ _ _ h
  · exact dictSet_nodup _ _ _ h

lemma chunkFold_nodup (ov : Bool) :
    ∀ (l : List (List Char × Nat)) (s : ChunkState),
      (s.outputDict.map Prod.fst).Nodup →
      (((l.foldl (chunkStep ov) s).outputDict).map Prod.fst).Nodup := by
  intro l
  induction l with
  | nil => intro s hs; exact hs
  | cons a rest ih => intro s hs; exact ih _ (chunkStep_nodup ov s a hs)

end STP

namespace STP

/-! ## Claim theorems for the chunker -/

/-- Claim C3 counterexample core: a header segment of length 2499 followed by
a one-character segment produces a single chunk of length 2501, because the
size check `len(current_string) + len(t) <= max_len` does not count the
joining space. -/
lemma naive_chunking_two_seg_2501 (t : List Char) (h1 : t.length = 2499)
    (h2 : t.take 1 = ['#']) :
    (naive_chunking [(t, 1), (['b'], 2)] true).map (fun c => c.text.length) = [2501] := by
  simp only [naive_chunking, List.foldl_cons, List.foldl_nil, chunkStep,
    chunkInit, maxLen, dictSet, h1, h2]
  norm_num [dictSet, List.length_append, h1]

/-- The 2499-character header segment used in the C3 counterexample. -/
def c3seg : List Char := '#' :: List.replicate 2498 'a'

/-- Claim C3 is false as stated: on the input `[(c3seg, 1), ("b", 2)]`, where
every segment has length at most 2500 (lengths 2499 and 1), `naive_chunking`
produces a single chunk of text length 2501 > 2500.  This chunk is formed
from two segments, so the single-oversized-segment exception does not apply,
yet the bound `len(text) ≤ 2500` fails. -/
theorem naive_chunking_size_cex :
    (naive_chunking [(c3seg, 1), (['b'], 2)] true).map (fun c => c.text.length) = [2501]
    ∧ c3seg.length = 2499 ∧ (['b'] : List Char).length = 1 := by
  have hlen : c3seg.length = 2499 := by
    rw [c3seg, List.length_cons, List.length_replicate]
  have htake : c3seg.take 1 = ['#'] := by
    rw [c3seg, List.take_succ_cons, List.take_zero]
  exact ⟨naive_chunking_two_seg_2501 c3seg hlen htake, hlen, rfl⟩

/-- Claim C3 (amended): every chunk produced by `naive_chunking` has text of
length at most `maxLen + 1 = 2501` (one more than the bound, because the
joining space is not counted by the size check), except a chunk whose text is
a single input segment's text, or an overlap seed (empty or itself a segment
text) joined by a space with a single segment's text. -/
theorem naive_chunking_size_bound (segs : List (List Char × Nat)) (ov : Bool)
    (c : Chunk) (hc : c ∈ naive_chunking segs ov) :
    c.text.length ≤ maxLen + 1
    ∨ (∃ t n, (t, n) ∈ segs ∧ c.text = t)
    ∨ (∃ l t n, (t, n) ∈ segs ∧ (l = [] ∨ ∃ m, (l, m) ∈ segs) ∧ c.text = l ++ ' ' :: t) := by
  have hinit : ChunkInv segs chunkInit :=
    ⟨Or.inl (by simp [chunkInit, maxLen]), Or.inl rfl, by simp [chunkInit]⟩
  have hinv := chunkFold_inv segs ov segs chunkInit (fun x hx => hx) hinit
  obtain ⟨hcur, _, hdict⟩ := hinv
  simp only [naive_chunking, List.mem_map] at hc
  obtain ⟨kv, hkv, hckv⟩ := hc
  have hok : SegOk segs kv.1 := dictSet_forall _ _ _ hdict hcur kv hkv
  have htext : c.text = kv.1 := by rw [← hckv]
  rw [htext]
  exact hok

/-- Witness for the amended C3 bound at a concrete input: the single chunk of
`naive_chunking [("#a", 1)]` satisfies the disjunction. -/
theorem naive_chunking_size_bound_witness :
    (⟨['#', 'a'], some 1⟩ : Chunk).text.length ≤ maxLen + 1
    ∨ (∃ t n, (t, n) ∈ [(['#', 'a'], 1)] ∧ (⟨['#', 'a'], some 1⟩ : Chunk).text = t)
    ∨ (∃ l t n, (t, n) ∈ [(['#', 'a'], 1)] ∧ (l = [] ∨ ∃ m, (l, m) ∈ [(['#', 'a'], 1)])
        ∧ (⟨['#', 'a'], some 1⟩ : Chunk).text = l ++ ' ' :: t) :=
  naive_chunking_size_bound [(['#', 'a'], 1)] true ⟨['#', 'a'], some 1⟩ (by decide)

/-- Claim C4 is false as stated: the single-character segment `"#"` begins
with `'#'` but fails the `len(t) > 1` half of the header test, so it is merged
into the preceding chunk instead of starting a new one: the whole input
becomes one chunk `" a #"`. -/
theorem naive_chunking_hash_merge_cex :
    naive_chunking [(['a'], 1), (['#'], 2)] true = [⟨[' ', 'a', ' ', '#'], some 1⟩] := by
  decide

/-- Claim C4 (amended): every segment of length at least 2 whose text begins
with `'#'` starts a new chunk: the accumulator is replaced by exactly the
segment's text (none of it is merged into the preceding chunk), the chunk
page becomes the segment's page, and the previous accumulator is sealed into
the output dict exactly when a page number had been recorded for it
(equivalently, when any segment had been processed before). -/
theorem chunkStep_header_boundary (ov : Bool) (s : ChunkState) (t : List Char) (n : Nat)
    (h1 : 1 < t.length) (h2 : t.take 1 = ['#']) :
    (chunkStep ov s (t, n)).current = t
    ∧ (chunkStep ov s (t, n)).pageNum = some n
    ∧ (s.pageNum = none → (chunkStep ov s (t, n)).outputDict = s.outputDict)
    ∧ ∀ p, s.pageNum = some p →
        (chunkStep ov s (t, n)).outputDict = dictSet s.outputDict s.current (some p) := by
  obtain ⟨cur, last, pn, dict⟩ := s
  have hcond : 1 < t.length ∧ t.take 1 = ['#'] := ⟨h1, h2⟩
  cases pn with
  | none => simp [chunkStep, hcond]
  | some q =>
      refine ⟨?_, ?_, fun h => Option.noConfusion h, fun p hp => ?_⟩
      · show (chunkStep ov ⟨cur, last, some q, dict⟩ (t, n)).current = t
        unfold chunkStep
        rw [if_pos hcond]
      · show (chunkStep ov ⟨cur, last, some q, dict⟩ (t, n)).pageNum = some n
        unfold chunkStep
        rw [if_pos hcond]
      · have hq : q = p := Option.some.inj hp
        show (chunkStep ov ⟨cur, last, some q, dict⟩ (t, n)).outputDict
          = dictSet dict cur (some p)
        unfold chunkStep
        rw [if_pos hcond, hq]

/-- Witness for the amended C4 claim at a concrete state and segment. -/
theorem chunkStep_header_boundary_witness :
    (chunkStep true ⟨['a'], ['a'], some 1, []⟩ (['#', 'b'], 2)).current = ['#', 'b']
    ∧ (chunkStep true ⟨['a'], ['a'], some 1, []⟩ (['#', 'b'], 2)).pageNum = some 2
    ∧ ((⟨['a'], ['a'], some 1, []⟩ : ChunkState).pageNum = none →
        (chunkStep true ⟨['a'], ['a'], some 1, []⟩ (['#', 'b'], 2)).outputDict
          = (⟨['a'], ['a'], some 1, []⟩ : ChunkState).outputDict)
    ∧ ∀ p, (⟨['a'], ['a'], some 1, []⟩ : ChunkState).pageNum = some p →
        (chunkStep true ⟨['a'], ['a'], some 1, []⟩ (['#', 'b'], 2)).outputDict
          = dictSet [] ['a'] (some p) :=
  chunkStep_header_boundary true ⟨['a'], ['a'], some 1, []⟩ ['#', 'b'] 2
    (by decide) (by decide)

/-- Claim C5 is false as stated: two distinct sealed accumulators with equal
text collapse into one output entry.  Processing `[("# A", 1), ("# A", 2)]`
seals the accumulator `"# A"` with page 1 and then seals `"# A"` again with
page 2, yet the result is a single chunk (with the later page), because the
output dict is keyed by chunk text. -/
theorem naive_chunking_duplicate_collapse_cex :
    naive_chunking [(['#', ' ', 'A'], 1), (['#', ' ', 'A'], 2)] true
      = [⟨['#', ' ', 'A'], some 2⟩]
    ∧ (naive_chunking [(['#', ' ', 'A'], 1), (['#', ' ', 'A'], 2)] true).length = 1 := by
  decide

/-! ### Irrelevant page detector lemmas -/

lemma pageStep_mono (s : DetectState) (i : Nat) (p : Page) :
    ∀ x ∈ s.excl, x ∈ (pageStep s i p).excl := by
  intro x hx
  unfold pageStep
  by_cases h : p.langResult = some enLang <;> simp [h, List.mem_append, hx]

lemma pageLoop_mono : ∀ (l : List Page) (s : DetectState) (i : Nat) (x : Nat),
    x ∈ s.excl → x ∈ (pageLoop s i l).excl := by
  intro l
  induction l with
  | nil => intro s i x hx; exact hx
  | cons p rest ih => intro s i x hx; exact ih _ _ x (pageStep_mono s i p x hx)

lemma mem_ite_le {c : Prop} [Decidable c] {i : Nat} {l1 l2 : List Nat}
    (h1 : ∀ y ∈ l1, y ≤ i) (h2 : ∀ y ∈ l2, y ≤ i) :
    ∀ y ∈ (if c then l1 else l2), y ≤ i := by
  split
  · exact h1
  · exact h2

lemma pageStep_bound (s : DetectState) (i : Nat) (p : Page) :
    ∀ x ∈ (pageStep s i p).excl, x ∈ s.excl ∨ x ≤ i := by
  intro x hx
  by_cases h : p.langResult = some enLang
  · simp only [pageStep, if_pos h, List.append_assoc, List.mem_append] at hx
    rcases hx with hx | hx
    · exact Or.inl hx
    · refine Or.inr ?_
      rcases hx with hx | hx | hx
      · exact mem_ite_le (by simp) (by simp) x hx
      · exact mem_ite_le (by simp) (by simp) x hx
      · refine mem_ite_le ?_ (by simp) x hx
        intro y hy
        rcases List.mem_cons.mp hy with hy | hy
        · omega
        · exact mem_ite_le (by simp)
            (fun z hz => Nat.le_of_lt (List.mem_range.mp hz)) y hy
  · simp only [pageStep, if_neg h, List.mem_append, List.mem_singleton] at hx
    rcases hx with hx | hx
    · exact Or.inl hx
    · exact Or.inr (by omega)

lemma pageLoop_bound : ∀ (l : List Page) (s : DetectState) (i : Nat) (x : Nat),
    x ∈ (pageLoop s i l).excl → x ∈ s.excl ∨ x < i + l.length := by
  intro l
  induction l with
  | nil => intro s i x hx; exact Or.inl hx
  | cons p rest ih =>
      intro s i x hx
      rcases ih (pageStep s i p) (i + 1) x hx with h | h
      · rcases pageStep_bound s i p x h with h1 | h1
        · exact Or.inl h1
        · right; simp only [List.length_cons]; omega
      · right; simp only [List.length_cons]; omega

lemma pageLoop_lang : ∀ (l : List Page) (k : Nat) (s : DetectState) (i : Nat) (p : Page),
    l.get? i = some p → ¬ p.langResult = some enLang →
    (k + i) ∈ (pageLoop s k l).excl := by
  intro l
  induction l with
  | nil => intro k s i p hp _; cases hp
  | cons q rest ih =>
      intro k s i p hp hl
      cases i with
      | zero =>
          have hq : q = p := by simpa using hp
          subst hq
          have hmem : k ∈ (pageStep s k q).excl := by
            unfold pageStep
            rw [if_neg hl]
            simp
          simpa using pageLoop_mono rest (pageStep s k q) (k + 1) k hmem
      | succ j =>
          have hj : rest.get? j = some p := by simpa using hp
          have := ih (k + 1) (pageStep s k q) j p hj hl
          have harith : k + (j + 1) = (k + 1) + j := by omega
          rw [harith]
          exact this

lemma tocStep_mono (dl : Nat) (s : List Nat) (e : TocEntry) (rest : List TocEntry) :
    ∀ x ∈ s, x ∈ tocStep dl s e rest := by
  intro x hx
  unfold tocStep
  split_ifs <;> simp_all [List.mem_append]

lemma tocLoop_mono : ∀ (l : List TocEntry) (dl : Nat) (s : List Nat) (x : Nat),
    x ∈ s → x ∈ tocLoop dl s l := by
  intro l
  induction l with
  | nil => intro dl s x hx; exact hx
  | cons e rest ih => intro dl s x hx; exact ih dl _ x (tocStep_mono dl s e rest x hx)

lemma tocStep_deny_self (dl : Nat) (s : List Nat) (e : TocEntry) (rest : List TocEntry)
    (hm : denyMatch e.title = true) : e.page ∈ tocStep dl s e rest := by
  unfold tocStep
  rw [if_pos hm]
  split_ifs <;> simp [List.mem_append]

lemma tocStep_deny_rest (dl : Nat) (s : List Nat) (e : TocEntry) (rest : List TocEntry)
    (f : TocEntry) (hm : denyMatch e.title = true) (hf : f ∈ rest)
    (hlv : ¬ f.level = e.level ∨ e.level < f.level) : f.page ∈ tocStep dl s e rest := by
  unfold tocStep
  rw [if_pos hm]
  have hmem : f.page ∈ (rest.filter
      (fun f => decide (¬ f.level = e.level ∨ e.level < f.level))).map (fun f => f.page) := by
    refine List.mem_map.mpr ⟨f, List.mem_filter.mpr ⟨hf, by simpa using hlv⟩, rfl⟩
  split_ifs <;> simp only [List.mem_append] <;> tauto

lemma tocLoop_deny (dl : Nat) : ∀ (pre : List TocEntry) (s : List Nat) (e : TocEntry)
    (rest : List TocEntry), denyMatch e.title = true →
    e.page ∈ tocLoop dl s (pre ++ e :: rest)
    ∧ ∀ f ∈ rest, (¬ f.level = e.level ∨ e.level < f.level) →
        f.page ∈ tocLoop dl s (pre ++ e :: rest) := by
  intro pre
  induction pre with
  | nil =>
      intro s e rest hm
      constructor
      · exact tocLoop_mono rest dl _ e.page (tocStep_deny_self dl s e rest hm)
      · intro f hf hlv
        exact tocLoop_mono rest dl _ f.page (tocStep_deny_rest dl s e rest f hm hf hlv)
  | cons a pre' ih =>
      intro s e rest hm
      exact ih (tocStep dl s a (pre' ++ e :: rest)) e rest hm

lemma tocStep_bound (dl : Nat) (s : List Nat) (e : TocEntry) (rest : List TocEntry) :
    ∀ x ∈ tocStep dl s e rest,
      x ∈ s ∨ x = e.page ∨ (∃ f ∈ rest, x = f.page) ∨ x < dl := by
  intro x hx
  unfold tocStep at hx
  split_ifs at hx with hm hr
  · simp only [List.mem_append, List.mem_singleton, List.mem_map, List.mem_filter] at hx
    rcases hx with ((hx | hx) | hx) | hx
    · exact Or.inl hx
    · exact Or.inr (Or.inl hx)
    · obtain ⟨f, hf, hfx⟩ := hx
      exact Or.inr (Or.inr (Or.inl ⟨f, hf.1, hfx.symm⟩))
    · have := List.mem_range'.mp hx
      right; right; right; omega
  · simp only [List.mem_append, List.mem_singleton, List.mem_map, List.mem_filter] at hx
    rcases hx with (hx | hx) | hx
    · exact Or.inl hx
    · exact Or.inr (Or.inl hx)
    · obtain ⟨f, hf, hfx⟩ := hx
      exact Or.inr (Or.inr (Or.inl ⟨f, hf.1, hfx.symm⟩))
  · exact Or.inl hx

lemma tocLoop_bound (dl : Nat) : ∀ (l : List TocEntry) (s : List Nat) (x : Nat),
    x ∈ tocLoop dl s l → x ∈ s ∨ (∃ e ∈ l, x = e.page) ∨ x < dl := by
  intro l
  induction l with
  | nil => intro s x hx; exact Or.inl hx
  | cons e rest ih =>
      intro s x hx
      rcases ih (tocStep dl s e rest) x hx with h | h | h
      · rcases tocStep_bound dl s e rest x h with h1 | h1 | h1 | h1
        · exact Or.inl h1
        · exact Or.inr (Or.inl ⟨e, List.mem_cons_self _ _, h1⟩)
        · obtain ⟨f, hf, hfx⟩ := h1
          exact Or.inr (Or.inl ⟨f, List.mem_cons_of_mem _ hf, hfx⟩)
        · exact Or.inr (Or.inr h1)
      · obtain ⟨f, hf, hfx⟩ := h
        exact Or.inr (Or.inl ⟨f, List.mem_cons_of_mem _ hf, hfx⟩)
      · exact Or.inr (Or.inr h)

/-! ## Claim theorems for the irrelevant page detector -/

/-- The TOC of the claim C1 example. -/
def c1doc : PdfDoc :=
  ⟨[], [⟨"Intro".data, 1, 1⟩, ⟨"Resources".data, 5, 1⟩,
        ⟨"Specs".data, 8, 2⟩, ⟨"Index".data, 10, 1⟩]⟩

/-- Claim C1 is false as stated: on the claim's own example TOC
`[("Intro",1,1), ("Resources",5,1), ("Specs",8,2), ("Index",10,1)]`, nothing
at all is excluded — in particular neither page 5 nor page 10.  The denylist
regex has the literal alternatives `other resources` and
`additional resources` (not `resources` alone) and is case-sensitive, so
neither "Resources" nor "Index" (capital I) matches. -/
theorem detect_irrelevant_toc_cex :
    detect_irrelevant_pages c1doc = []
    ∧ 5 ∉ detect_irrelevant_pages c1doc
    ∧ 10 ∉ detect_irrelevant_pages c1doc := by
  decide

/-- Claim C1 (amended): a TOC entry matches only when its title contains one
of the case-sensitive literals `other resources`, `additional resources`,
`acronyms`, `abbreviations`, `abstract`, `index`, `recycling`,
`specifications`.  For a matched entry, its raw page number is excluded
together with the page number of every subsequent TOC entry whose depth
DIFFERS from the matched entry's depth (the guard
`not toc[j][-1] == item[-1] or toc[j][-1] > item[-1]` is equivalent to
`toc[j].level ≠ item.level`), continuing to the end of the TOC with no
stopping condition; entries at the same depth are not excluded by this
rule. -/
theorem detect_irrelevant_toc_exclusion (doc : PdfDoc) (pre : List TocEntry)
    (e : TocEntry) (rest : List TocEntry) (htoc : doc.toc = pre ++ e :: rest)
    (hm : denyMatch e.title = true) :
    e.page ∈ detect_irrelevant_pages doc
    ∧ ∀ f ∈ rest, (¬ f.level = e.level ∨ e.level < f.level) →
        f.page ∈ detect_irrelevant_pages doc := by
  unfold detect_irrelevant_pages extract_table_of_contents
  rw [htoc]
  exact tocLoop_deny doc.pages.length pre
    (pageLoop ⟨[], false, 0⟩ 0 doc.pages).excl e rest hm

/-- The document used to witness the amended C1 claim. -/
def c1wdoc : PdfDoc := ⟨[], [⟨"abstract".data, 5, 1⟩, ⟨"x".data, 8, 2⟩]⟩

/-- Witness for the amended C1 claim: in a TOC `[("abstract",5,1),("x",8,2)]`
the matched entry's page 5 and the different-depth entry's page 8 are both
excluded. -/
theorem detect_irrelevant_toc_exclusion_witness :
    5 ∈ detect_irrelevant_pages c1wdoc ∧ 8 ∈ detect_irrelevant_pages c1wdoc := by
  have h := detect_irrelevant_toc_exclusion c1wdoc [] ⟨"abstract".data, 5, 1⟩
    [⟨"x".data, 8, 2⟩] rfl (by decide)
  exact ⟨h.1, h.2 ⟨"x".data, 8, 2⟩ (by decide) (by decide)⟩

/-- A one-page document whose only page has an undetermined language
(`detect` raised) and no other anomaly: 150 words, no keyword or TOC-pattern
matches. -/
def c2doc : PdfDoc := ⟨[⟨none, 150, false, false, false, 0⟩], []⟩

/-- Claim C2 is false as stated: the page on which language detection failed
is added to the exclusion set although no other rule applies — the detection
failure alone causes the exclusion.  After the `except` branch `lang` is
still `None`, so `if lang == "en"` fails and the `else` branch marks the page
irrelevant (fail-closed, not fail-open). -/
theorem detect_irrelevant_lang_fail_cex :
    detect_irrelevant_pages c2doc = [0] := by
  decide

/-- Claim C2 (amended): a page is kept by the language rule only when its
detected language is exactly `"en"`; every page whose detection result is not
a successful `"en"` — a different language or a detection failure alike — is
marked irrelevant outright. -/
theorem detect_irrelevant_non_en (doc : PdfDoc) (i : Nat) (p : Page)
    (hp : doc.pages.get? i = some p) (hl : ¬ p.langResult = some enLang) :
    i ∈ detect_irrelevant_pages doc := by
  unfold detect_irrelevant_pages
  apply tocLoop_mono
  simpa using pageLoop_lang doc.pages 0 ⟨[], false, 0⟩ i p hp hl

/-- A one-page document whose page is detected as German. -/
def c2wdoc : PdfDoc := ⟨[⟨some "de".data, 150, false, false, false, 0⟩], []⟩

/-- Witness for the amended C2 claim at a concrete document. -/
theorem detect_irrelevant_non_en_witness :
    0 ∈ detect_irrelevant_pages c2wdoc :=
  detect_irrelevant_non_en c2wdoc 0 ⟨some "de".data, 150, false, false, false, 0⟩
    rfl (by decide)

/-- A one-page document (so the only valid page index is 0) whose TOC has the
single entry `("index", 1, 1)`. -/
def c10doc : PdfDoc :=
  ⟨[⟨some enLang, 150, false, false, false, 0⟩], [⟨"index".data, 1, 1⟩]⟩

/-- Claim C10 is false as stated: for a 1-page document with TOC entry
`("index", 1, 1)`, the TOC-entry-driven rule adds the raw TOC page number 1
to the exclusion set, and 1 is not strictly less than the page count 1.  The
per-page rules add 0-based indices, but the TOC rule adds the entry's 1-based
(or parsed printed) page number without converting it to an index. -/
theorem detect_irrelevant_bounds_cex :
    1 ∈ detect_irrelevant_pages c10doc ∧ c10doc.pages.length = 1 := by
  decide

/-- Claim C10 (amended): every index in the exclusion set is non-negative (it
is a `Nat` in the model), and is either strictly below the page count (all
per-page rules and the trailing-range rule only add such indices) or is the
raw page number of some TOC entry — and the latter may equal or exceed the
page count. -/
theorem detect_irrelevant_bounds (doc : PdfDoc) (x : Nat)
    (hx : x ∈ detect_irrelevant_pages doc) :
    x < doc.pages.length ∨ ∃ e ∈ doc.toc, x = e.page := by
  unfold detect_irrelevant_pages extract_table_of_contents at hx
  rcases tocLoop_bound doc.pages.length doc.toc _ x hx with h | h | h
  · rcases pageLoop_bound doc.pages ⟨[], false, 0⟩ 0 x h with h1 | h1
    · simp at h1
    · left; omega
  · exact Or.inr h
  · exact Or.inl h

/-- Witness for the amended C10 claim: the excluded value 1 of the `c10doc`
counterexample document is the page number of its TOC entry. -/
theorem detect_irrelevant_bounds_witness :
    1 < c10doc.pages.length ∨ ∃ e ∈ c10doc.toc, 1 = e.page :=
  detect_irrelevant_bounds c10doc 1 (by decide)

/-! ## Claim theorems for the document linearizer -/

/-- The failing input of claim C8: two nested list groups followed by a list
item, so the item is processed at `list_nesting_level = 2`. -/
def c8items : List DocItem :=
  [⟨.listGroup, 1, 1, true⟩, ⟨.listGroup, 1, 2, true⟩,
   ⟨.listItem false [] "item".data, 1, 3, true⟩]

/-- Claim C8 describes the intended behaviour, but the code strips the
indentation it just computed: the list-item line is
`f"{list_indent}{marker}{item.text}".strip()`, and `.strip()` removes the
leading `4 × (depth − 1)` spaces again, so at depth 2 the buffered line is
`"- item"`, not `"    - item"` — contradicting the claim (and the docstring's
"nested indentation based on their nesting level"). -/
theorem process_pdf_indent_stripped :
    process_pdf_items c8items [] false = [("- item".data, some 1)]
    ∧ listItemLine 2 false [] "item".data = "- item".data
    ∧ ("- item".data : List Char) ≠ List.replicate 4 ' ' ++ "- item".data := by
  decide

/-- The C9 counterexample stream: a list group on page 1 and two list items
on pages 1 and 2, reaching end of stream inside the list. -/
def c9items : List DocItem :=
  [⟨.listGroup, 1, 1, true⟩, ⟨.listItem false [] ['a'], 1, 2, true⟩,
   ⟨.listItem false [] ['b'], 2, 2, true⟩]

/-- Claim C9 is false as stated: the end-of-stream flush emits
`"".join(current_list)` — the lines `"- a"` and `"- b"` are concatenated to
`"- a- b"` with no newline — and the segment is tagged with page 2, the page
of the last list item, not page 1, the page recorded when the list
started. -/
theorem process_pdf_end_flush_cex :
    process_pdf_items c9items [] false = [("- a- b".data, some 2)] := by
  decide

/-- Claim C9 (amended): a mid-stream flush (processing a plain text item
while inside a list with a non-empty buffer) emits the buffered lines joined
by newline, tagged with the CURRENT `current_list_page`; each list item
overwrites `current_list_page` with its own page, so that page is the page
of the last buffered item, not of the list's start; and the end-of-stream
flush of a remaining non-empty buffer emits the lines joined by the EMPTY
separator, tagged the same way. -/
theorem process_pdf_flush_behavior (tb : Bool) (ign : List Nat) (s : PdfState)
    (t : List Char) (pg lvl : Nat)
    (hcl : s.currentList ≠ []) (hin : s.inList = true) (hpg : (pg - 1) ∉ ign) :
    (processItem tb ign s ⟨.textItem t, pg, lvl, true⟩).elements
      = s.elements
        ++ [(List.intercalate ['\n'] s.currentList, s.currentListPage), (t, some pg)]
    ∧ (processItem tb ign s ⟨.listItem false [] t, pg, lvl, true⟩).currentListPage = some pg
    ∧ ∀ items : List DocItem,
        (items.foldl (processItem tb ign) pdfInit).currentList ≠ [] →
        process_pdf_items items ign tb
          = (items.foldl (processItem tb ign) pdfInit).elements
            ++ [((items.foldl (processItem tb ign) pdfInit).currentList.flatten,
                 (items.foldl (processItem tb ign) pdfInit).currentListPage)] := by
  obtain ⟨lnl0, prev0, inl0, cl0, clp0, els0⟩ := s
  simp only [PdfState.inList] at hin
  subst hin
  simp only [PdfState.currentList] at hcl
  refine ⟨?_, ?_, ?_⟩
  · by_cases he : els0 = []
    · subst he
      simp [processItem, preFlush, flushList, stringify_list,
        ItemKind.isListOrGroup, hcl, hpg]
    · have hlen : (els0 : List (List Char × Option Nat)).length > 0 :=
        List.length_pos.mpr he
      simp [processItem, preFlush, flushList, stringify_list,
        ItemKind.isListOrGroup, hcl, hpg, hlen]
  · simp [processItem, preFlush, flushList, ItemKind.isListOrGroup, hpg]
  · intro items hne
    simp only [process_pdf_items, if_pos hne]

/-- The state used to witness the amended C9 claim: inside a list whose
buffer holds the line `"- a"` recorded for page 1. -/
def pdfWitState : PdfState := ⟨1, 2, true, [['-', ' ', 'a']], some 1, []⟩

/-- The item stream used to witness the end-of-stream conjunct. -/
def c9witems : List DocItem :=
  [⟨.listGroup, 1, 1, true⟩, ⟨.listItem false [] ['a'], 1, 2, true⟩]

/-- Witness for the amended C9 claim at a concrete state and stream. -/
theorem process_pdf_flush_behavior_witness :
    (processItem false [] pdfWitState ⟨.textItem ['x'], 1, 0, true⟩).elements
      = pdfWitState.elements
        ++ [(List.intercalate ['\n'] pdfWitState.currentList, pdfWitState.currentListPage),
            (['x'], some 1)]
    ∧ (processItem false [] pdfWitState ⟨.listItem false [] ['x'], 1, 0, true⟩).currentListPage
        = some 1
    ∧ process_pdf_items c9witems [] false
        = (c9witems.foldl (processItem false []) pdfInit).elements
          ++ [((c9witems.foldl (processItem false []) pdfInit).currentList.flatten,
               (c9witems.foldl (processItem false []) pdfInit).currentListPage)] := by
  have h := process_pdf_flush_behavior false [] pdfWitState ['x'] 1 0
    (by decide) rfl (by decide)
  exact ⟨h.1, h.2.1, h.2.2 c9witems (by decide)⟩

/-- Claim C5 (amended): the chunk list preserves the order in which distinct
chunk texts were first sealed, with one entry per distinct sealed text: the
output texts are pairwise distinct, and each dict assignment either rewrites
an existing entry in place (leaving the key sequence unchanged) or appends
the new key at the end. -/
theorem naive_chunking_distinct_ordered (segs : List (List Char × Nat)) (ov : Bool) :
    ((naive_chunking segs ov).map Chunk.text).Nodup
    ∧ ∀ (d : List (List Char × Option Nat)) (k : List Char) (v : Option Nat),
        (dictSet d k v).map Prod.fst = d.map Prod.fst
        ∨ (dictSet d k v).map Prod.fst = d.map Prod.fst ++ [k] := by
  constructor
  · have h0 : ((chunkInit.outputDict).map Prod.fst).Nodup := by simp [chunkInit]
    have hfold := chunkFold_nodup ov segs chunkInit h0
    have hfinal := dictSet_nodup _ (segs.foldl (chunkStep ov) chunkInit).current
      (segs.foldl (chunkStep ov) chunkInit).pageNum hfold
    simpa [naive_chunking, List.map_map, Function.comp] using hfinal
  · intro d k v
    rw [dictSet_keys]
    split_ifs with hk
    · exact Or.inl rfl
    · exact Or.inr rfl

/-! ## Claim theorems for fusion and store error handling -/

/-- Claim C6: in the fused ranking of the hybrid query built by
`generate_sql_query`, a row's score is the sum over the branches it appears
in of `rrf_score(rank) = 1/(k + rank)`, so a row present in both the vector
and the lexical branch strictly outscores a row present only in the vector
branch with the same vector rank; in particular vector-rank 1 with
lexical-rank 1 outscores vector-rank 1 alone. -/
theorem fusedScore_both_branches_better (rv rl : Nat) :
    fusedScore (some rv) none < fusedScore (some rv) (some rl)
    ∧ fusedScore (some 1) none < fusedScore (some 1) (some 1) := by
  have hpos : ∀ r : Nat, 0 < rrf_score r := by
    intro r
    unfold rrf_score
    positivity
  have h : ∀ a b : Nat, fusedScore (some a) none < fusedScore (some a) (some b) := by
    intro a b
    simp only [fusedScore]
    have := hpos b
    linarith
  exact ⟨h rv rl, h 1 1⟩

/-- Claim C7 is false as stated: a query failure during chunk insertion does
NOT propagate — `add_manual_chunks_to_db` catches the exception, prints it,
and returns `None` as if the insertion had succeeded. -/
theorem add_manual_chunks_swallows_cex :
    add_manual_chunks_to_db (Except.ok (0 : Nat))
      (fun _ => Except.error "insert failed".data) = (Except.ok (), true) := by
  rfl

/-- Claim C7 (amended): for `retrieve_context`, every query failure after a
successful connect propagates to the caller and the connection is closed on
every exit path after acquisition; for `add_manual_chunks_to_db`, the
connection is likewise closed after acquisition, but a failure of the body
is caught and logged and the function returns normally instead of
propagating the failure. -/
theorem store_error_paths {α β : Type} (c : α) (q : α → Except (List Char) β)
    (ins : α → Except (List Char) Unit) (e : List Char) (hq : q c = .error e) :
    retrieve_context (.ok c) q = (.error e, true)
    ∧ (retrieve_context (.ok c) q).2 = true
    ∧ (add_manual_chunks_to_db (.ok c) ins).2 = true
    ∧ (ins c = .error e → add_manual_chunks_to_db (.ok c) ins = (.ok (), true)) := by
  refine ⟨?_, ?_, ?_, ?_⟩
  · simp [retrieve_context, hq]
  · simp [retrieve_context, hq]
  · cases hins : ins c with
    | ok u => simp [add_manual_chunks_to_db, hins]
    | error er => simp [add_manual_chunks_to_db, hins]
  · intro hi
    simp [add_manual_chunks_to_db, hi]

/-- Witness for the amended C7 claim at concrete outcomes. -/
theorem store_error_paths_witness :
    retrieve_context (Except.ok (0 : Nat))
        (fun _ => (Except.error ['x'] : Except (List Char) Nat))
      = (Except.error ['x'], true)
    ∧ (retrieve_context (Except.ok (0 : Nat))
        (fun _ => (Except.error ['x'] : Except (List Char) Nat))).2 = true
    ∧ (add_manual_chunks_to_db (Except.ok (0 : Nat))
        (fun _ => (Except.error ['x'] : Except (List Char) Unit))).2 = true
    ∧ add_manual_chunks_to_db (Except.ok (0 : Nat))
        (fun _ => (Except.error ['x'] : Except (List Char) Unit))
      = (Except.ok (), true) := by
  have h := store_error_paths (0 : Nat)
    (fun _ => (Except.error ['x'] : Except (List Char) Nat))
    (fun _ => (Except.error ['x'] : Except (List Char) Unit)) ['x'] rfl
  exact ⟨h.1, h.2.1, h.2.2.1, h.2.2.2 rfl⟩

end STP
